import Mathlib

/-!
Verification of the redox kernel syscall dispatcher (`src/syscall/handle.rs`).

The file embeds, as pure Lean functions, the state manipulated by
`syscall_handle` and the effect of each syscall arm on it:

* the process table (`Vec<Box<Context>>` behind `contexts_ptr`) together with
  the scheduling cursor `context_i`, and the `SYS_EXIT` / `SYS_YIELD` arms;
* the session window list and the `SYS_WINDOW_DESTROY` removal loop;
* the debug surface state and the `SYS_DEBUG` arm;
* the session mouse/redraw state, the event queue and the `SYS_TRIGGER` arm;
* the interrupt mask guard `start_no_ints` / `end_no_ints`;
* an access trace per syscall arm recording which shared singletons are
  touched inside or outside the guarded sections.

Contexts and window handles are opaque to the dispatcher, so they are
modelled by a type parameter with decidable equality (window handles are raw
pointers compared by identity).  `remap` followed by `switch` transfers
control; the embedding records the pair (current, next) such a transfer was
invoked with, rather than performing it.
-/

namespace Redox

/-- The process table plus scheduling cursor: models the globals
`*contexts_ptr : Vec<Box<Context>>` and `context_i : usize`.
Contexts are opaque (`α`). -/
structure SchedState (α : Type) where
  contexts : List α
  context_i : Nat
deriving Repr, DecidableEq

/-- Modelled from the spec: `Vec::remove` of the repository's `common` crate
(not under src/); per the spec the table is an "ordered, mutable sequence",
and `remove` deletes the element at a valid index and returns it
(`Option::Some`), returning `Option::None` and leaving the sequence
unchanged at an out-of-range index. -/
def vec_remove {α : Type} (l : List α) (i : Nat) : List α × Option α :=
  if h : i < l.length then (l.eraseIdx i, some (l.get ⟨i, h⟩)) else (l, none)

/-- The `SYS_EXIT` arm (handle.rs lines 43–67).  Returns the new table/cursor
state and, when `remap`+`switch` was invoked, the pair
(removed current context, context switched to). -/
def sysExit {α : Type} (s : SchedState α) : SchedState α × Option (α × α) :=
  if s.contexts.length > 1 ∧ s.context_i > 1 then
    -- let current_option = contexts.remove(context_i);
    let r := vec_remove s.contexts s.context_i
    -- if context_i >= contexts.len() { context_i -= contexts.len(); }
    let i' := if s.context_i ≥ r.1.length then s.context_i - r.1.length
              else s.context_i
    -- match current_option { Some(current) => match contexts.get(context_i) ... }
    let switched :=
      match r.2, r.1[i']? with
      | some current, some next => some (current, next)
      | _, _ => none
    (⟨r.1, i'⟩, switched)
  else
    (s, none)

/-- The `SYS_YIELD` arm (handle.rs lines 129–152).  Returns the new state and,
when `remap`+`switch` was invoked, the pair (old current, new current). -/
def sysYield {α : Type} (s : SchedState α) : SchedState α × Option (α × α) :=
  -- let current_i = context_i; context_i += 1;
  let current_i := s.context_i
  let i1 := current_i + 1
  -- if context_i >= contexts.len() { context_i -= contexts.len(); }
  let i2 := if i1 ≥ s.contexts.length then i1 - s.contexts.length else i1
  let switched :=
    if i2 ≠ current_i then
      match s.contexts[current_i]?, s.contexts[i2]? with
      | some current, some next => some (current, next)
      | _, _ => none
    else none
  (⟨s.contexts, i2⟩, switched)

/-- Iterated `SYS_YIELD`. -/
def yields {α : Type} (s : SchedState α) : Nat → SchedState α
  | 0 => s
  | k + 1 => (sysYield (yields s k)).1

/-- The scan-and-remove loop of the `SYS_WINDOW_DESTROY` arm
(handle.rs lines 109–125): starting at index `i`, repeatedly inspect the
entry at `i`; on an identity match remove the entry at `i` and rescan the
same index (`remove = true` does not advance `i`), otherwise advance `i`;
stop once `i` reaches the list length.  Window handles are raw pointers
compared by identity, modelled by `α` with decidable equality. -/
def destroyLoop {α : Type} [DecidableEq α] (t : α) (windows : List α)
    (i : Nat) : List α :=
  if h : i < windows.length then
    if windows.get ⟨i, h⟩ = t then destroyLoop t (windows.eraseIdx i) i
    else destroyLoop t windows (i + 1)
  else windows
termination_by windows.length - i
decreasing_by
  · rw [List.length_eraseIdx_of_lt h]
    omega
  · omega

/-- The `SYS_WINDOW_DESTROY` arm (handle.rs lines 106–128): run the scan
loop from index 0 over the session window list. -/
def windowDestroy {α : Type} [DecidableEq α] (windows : List α) (t : α) :
    List α :=
  destroyLoop t windows 0

/-- A drawing surface: the `Display` fields the dispatcher reads
(`width`, `height`; handle.rs lines 31 and 35). -/
structure Display where
  width : Nat
  height : Nat
deriving Repr, DecidableEq

/-- A two-dimensional point with signed (`isize`) coordinates. -/
structure Point where
  x : Int
  y : Int
deriving Repr, DecidableEq

/-- The mutable debug-console state: the globals `::debug_point` and
`::debug_redraw`. -/
structure DebugState where
  point : Point
  redraw : Bool
deriving Repr, DecidableEq

/-- The scroll loop of the `SYS_DEBUG` arm (handle.rs lines 35–38):
`while debug_point.y + 16 > display.height as isize { display.scroll(16);
debug_point.y -= 16 }`.  Returns the final `y` together with the number of
`display.scroll(16)` calls made. -/
def scrollLoop (h : Int) (y : Int) : Int × Nat :=
  if y + 16 > h then
    let r := scrollLoop h (y - 16)
    (r.1, r.2 + 1)
  else (y, 0)
termination_by (y + 16 - h).toNat
decreasing_by
  simp_wf
  omega

/-- The observable result of one `SYS_DEBUG` call: the new debug state, the
glyph drawn by `display.char` (cursor position and character, if any), the
number of `display.scroll(16)` calls, and the byte written to the legacy
serial port `0x3F8` by `outb`. -/
structure DebugOut where
  state : DebugState
  drawn : Option (Point × Char)
  scrolls : Nat
  serial : Nat
deriving Repr, DecidableEq

/-- The `SYS_DEBUG` arm (handle.rs lines 20–42).  `disp` is `none` when the
global `::debug_display` pointer is null (`debug_display as usize == 0`);
`ebx` is the syscall argument, and `ebx as u8` becomes `ebx % 256`. -/
def sysDebug (disp : Option Display) (st : DebugState) (ebx : Nat) : DebugOut :=
  match disp with
  | some display =>
    -- if ebx == 10 { point.x = 0; point.y += 16; redraw = true }
    -- else { display.char(point, ebx as u8 as char, white); point.x += 8 }
    let step : DebugState × Option (Point × Char) :=
      if ebx = 10 then
        (⟨⟨0, st.point.y + 16⟩, true⟩, none)
      else
        (⟨⟨st.point.x + 8, st.point.y⟩, st.redraw⟩,
         some (st.point, Char.ofNat (ebx % 256)))
    -- if point.x >= display.width { point.x = 0; point.y += 16 }
    let wrapped : DebugState :=
      if step.1.point.x ≥ (display.width : Int) then
        ⟨⟨0, step.1.point.y + 16⟩, step.1.redraw⟩
      else step.1
    let r := scrollLoop (display.height : Int) wrapped.point.y
    ⟨⟨⟨wrapped.point.x, r.1⟩, wrapped.redraw⟩, step.2, r.2, ebx % 256⟩
  | none => ⟨st, none, 0, ebx % 256⟩

/-- An input event (`common::event::Event`, fields used by the dispatcher):
`code` is the event-class tag (`'m'` pointer motion, `'k'` key), and `a`,
`b`, `c` are signed payload words. -/
structure Event where
  code : Char
  a : Int
  b : Int
  c : Int
deriving Repr, DecidableEq

/-- Modelled from the spec: the cursor redraw level of `common` (not under
src/); the spec orders the levels none < cursor < all and the session
redraw field is only ever raised by `max`. -/
def REDRAW_CURSOR : Nat := 1

/-- Modelled from the spec: the full-redraw level (see `REDRAW_CURSOR`). -/
def REDRAW_ALL : Nat := 2

/-- The session fields the `SYS_TRIGGER` arm touches (behind
`::session_ptr`): the active display bounds, the mouse point and the
redraw level. -/
structure Session where
  display : Display
  mouse_point : Point
  redraw : Nat
deriving Repr, DecidableEq

/-- The `SYS_TRIGGER` arm (handle.rs lines 73–98): copies the event, clamps
pointer-motion coordinates against the display and updates the session
mouse/redraw state, toggles the global `::debug_draw` / `::debug_redraw`
flags on the two designated keys, and appends the (possibly mutated) event
to the global queue (`Vec::push`, modelled as appending at the end of the
list per the spec's "append-only global queue").  Returns the new session,
event queue, `debug_draw` and `debug_redraw`. -/
def sysTrigger (session : Session) (events : List Event)
    (debug_draw debug_redraw : Bool) (e : Event) :
    Session × List Event × Bool × Bool :=
  -- if event.code == 'm' { clamp event.a/event.b, move mouse, raise redraw }
  let e1 := if e.code = 'm' then
      { e with
        a := max 0 (min ((session.display.width : Int) - 1)
              (session.mouse_point.x + e.a)),
        b := max 0 (min ((session.display.height : Int) - 1)
              (session.mouse_point.y + e.b)) }
    else e
  let session1 := if e.code = 'm' then
      { session with
        mouse_point := ⟨e1.a, e1.b⟩,
        redraw := max session.redraw REDRAW_CURSOR }
    else session
  -- if event.code == 'k' && event.b == 0x3B && event.c > 0 { debug on }
  let flags1 := if e1.code = 'k' ∧ e1.b = 0x3B ∧ e1.c > 0 then (true, true)
    else (debug_draw, debug_redraw)
  -- if event.code == 'k' && event.b == 0x3C && event.c > 0 { debug off }
  let step2 := if e1.code = 'k' ∧ e1.b = 0x3C ∧ e1.c > 0 then
      (false, { session1 with redraw := max session1.redraw REDRAW_ALL })
    else (flags1.1, session1)
  (step2.2, events ++ [e1], step2.1, flags1.2)

/-- Modelled from the spec: the Mask Guard `start_no_ints` of
`common::scheduler` (not under src/).  Per the spec it captures the current
interrupt-enabled flag, disables interrupts, and returns the captured flag
as the token; the machine state here is the interrupt-enabled flag. -/
def start_no_ints (iflag : Bool) : Bool × Bool := (iflag, false)

/-- Modelled from the spec: the Mask Guard `end_no_ints` of
`common::scheduler` (not under src/).  It re-enables interrupts exactly
when the token says they were enabled at acquisition, and otherwise leaves
the flag as it is (masked inside a guard). -/
def end_no_ints (reenable : Bool) (iflag : Bool) : Bool :=
  if reenable then true else iflag

/-- The shared mutable singletons named by the spec: the process table with
its cursor (`contexts_ptr`, `context_i`), the active-session reference
(`::session_ptr`), the debug-surface state (`::debug_display`,
`::debug_point`, `::debug_draw`, `::debug_redraw`), and the global event
queue (`::events_ptr`). -/
inductive Sing
  | table
  | session
  | debug
  | events
deriving Repr, DecidableEq

/-- One primitive step of a syscall arm at the granularity relevant to
interrupt masking: entering or leaving a guarded section
(`start_no_ints` / `end_no_ints`), or touching one of the shared
singletons. -/
inductive KOp
  | guardStart
  | guardEnd
  | acc (s : Sing)
deriving Repr, DecidableEq

/-- The operation codes dispatched by `syscall_handle` (the `eax` match
arms; the numeric constants live in `syscall::common`, outside src/). -/
inductive Opcode
  | sysDebugOp
  | sysExitOp
  | sysOpenOp
  | sysTriggerOp
  | sysWindowCreateOp
  | sysWindowDestroyOp
  | sysYieldOp
  | unknownOp
deriving Repr, DecidableEq

/-- The order in which one run of `syscall_handle` touches the shared
singletons and the guard, per arm (handle.rs lines 18–155).  `cfg` says
whether `::debug_display` is non-null, `e` is the event passed to
`SYS_TRIGGER`; consecutive accesses to the same singleton within one region
are recorded once.  A deref of `contexts_ptr`/`context_i` is `.table`, of
`::session_ptr` is `.session`, of the `::debug_*` globals is `.debug`, and
of `::events_ptr` is `.events`. -/
def syscallTrace (op : Opcode) (cfg : Bool) (e : Event) : List KOp :=
  match op with
  | .sysDebugOp =>
      -- line 21 reads ::debug_display unconditionally, with no guard at
      -- all; lines 22–38 touch the display and ::debug_point when non-null
      .acc .debug :: (if cfg then [.acc .debug] else [])
  | .sysExitOp => [.guardStart, .acc .table, .guardEnd]
  | .sysOpenOp =>
      -- lines 69–71 dereference ::session_ptr with no guard
      [.acc .session]
  | .sysTriggerOp =>
      -- lines 76–90 touch the session and the debug flags before the guard
      (if e.code = 'm' then [.acc .session] else []) ++
      (if e.code = 'k' ∧ e.b = 0x3B ∧ e.c > 0 then [.acc .debug] else []) ++
      (if e.code = 'k' ∧ e.b = 0x3C ∧ e.c > 0 then
        [.acc .debug, .acc .session] else []) ++
      [.guardStart, .acc .events, .guardEnd]
  | .sysWindowCreateOp => [.guardStart, .acc .session, .guardEnd]
  | .sysWindowDestroyOp => [.guardStart, .acc .session, .guardEnd]
  | .sysYieldOp => [.guardStart, .acc .table, .guardEnd]
  | .unknownOp => []

/-- The singletons accessed at guard depth 0, i.e. outside every
`start_no_ints`/`end_no_ints` section, in a trace starting at depth `d`. -/
def unguardedAccesses : List KOp → Nat → List Sing
  | [], _ => []
  | .guardStart :: rest, d => unguardedAccesses rest (d + 1)
  | .guardEnd :: rest, d => unguardedAccesses rest (d - 1)
  | .acc s :: rest, d =>
      (if d = 0 then [s] else []) ++ unguardedAccesses rest d

/-! ### Scheduler helper lemmas -/

theorem sysYield_fst_contexts {α : Type} (s : SchedState α) :
    (sysYield s).1.contexts = s.contexts := rfl

theorem sysYield_fst_context_i {α : Type} (s : SchedState α)
    (hv : s.context_i < s.contexts.length) :
    (sysYield s).1.context_i = (s.context_i + 1) % s.contexts.length := by
  show (if s.context_i + 1 ≥ s.contexts.length then
          s.context_i + 1 - s.contexts.length else s.context_i + 1) = _
  split
  · have hlen : s.context_i + 1 = s.contexts.length := by omega
    rw [hlen, Nat.sub_self, Nat.mod_self]
  · rw [Nat.mod_eq_of_lt (by omega)]

theorem yields_contexts {α : Type} (s : SchedState α) (k : Nat) :
    (yields s k).contexts = s.contexts := by
  induction k with
  | zero => rfl
  | succ k ih => show (sysYield (yields s k)).1.contexts = _; rw [sysYield_fst_contexts, ih]

theorem yields_context_i {α : Type} (s : SchedState α) (k : Nat)
    (hv : s.context_i < s.contexts.length) :
    (yields s k).context_i = (s.context_i + k) % s.contexts.length := by
  have hpos : 0 < s.contexts.length := Nat.lt_of_le_of_lt (Nat.zero_le _) hv
  induction k with
  | zero => exact (Nat.mod_eq_of_lt hv).symm
  | succ k ih =>
      show (sysYield (yields s k)).1.context_i = _
      rw [sysYield_fst_context_i _ (by rw [ih, yields_contexts]; exact Nat.mod_lt _ hpos),
        yields_contexts, ih, Nat.mod_add_mod, Nat.add_assoc]

theorem yields_visited_eq_rotate {α : Type} (s : SchedState α)
    (hv : s.context_i < s.contexts.length) :
    ((List.range s.contexts.length).map fun k => (yields s (k + 1)).context_i) =
      (List.range s.contexts.length).rotate ((s.context_i + 1) % s.contexts.length) := by
  apply List.ext_getElem
  · simp
  · intro k h1 h2
    rw [List.getElem_map, List.getElem_range, yields_context_i _ _ hv,
      List.getElem_rotate, List.getElem_range, List.length_range, Nat.add_mod_mod]
    congr 1
    omega

/-! ### Exit helper lemmas -/

theorem sysExit_of_not_guard {α : Type} (s : SchedState α)
    (hg : ¬(s.contexts.length > 1 ∧ s.context_i > 1)) :
    sysExit s = (s, none) := by
  simp [sysExit, hg]

theorem sysExit_of_guard {α : Type} (s : SchedState α)
    (hv : s.context_i < s.contexts.length)
    (hg : s.contexts.length > 1 ∧ s.context_i > 1) :
    (sysExit s).1.contexts = s.contexts.eraseIdx s.context_i ∧
    (sysExit s).1.context_i =
      (if s.context_i = s.contexts.length - 1 then 0 else s.context_i) ∧
    ∃ c next, s.contexts[s.context_i]? = some c ∧
      (s.contexts.eraseIdx s.context_i)[(sysExit s).1.context_i]? = some next ∧
      (sysExit s).2 = some (c, next) := by
  have hlen : (s.contexts.eraseIdx s.context_i).length = s.contexts.length - 1 :=
    List.length_eraseIdx_of_lt hv
  by_cases hc : s.context_i = s.contexts.length - 1
  · have hge : s.context_i ≥ (s.contexts.eraseIdx s.context_i).length := by omega
    have h0 : s.context_i - (s.contexts.eraseIdx s.context_i).length <
        (s.contexts.eraseIdx s.context_i).length := by omega
    simp only [sysExit, if_pos hg, vec_remove, dif_pos hv, if_pos hge,
      List.getElem?_eq_getElem h0]
    refine ⟨trivial, ?_, _, _, List.getElem?_eq_getElem hv, rfl, rfl⟩
    rw [hlen, if_pos hc]
    omega
  · have hlt : ¬(s.context_i ≥ (s.contexts.eraseIdx s.context_i).length) := by omega
    have h0 : s.context_i < (s.contexts.eraseIdx s.context_i).length := by omega
    simp only [sysExit, if_pos hg, vec_remove, dif_pos hv, if_neg hlt,
      List.getElem?_eq_getElem h0]
    refine ⟨trivial, ?_, _, _, List.getElem?_eq_getElem hv, rfl, rfl⟩
    rw [if_neg hc]

/-! ### Window destroy helper lemmas -/

theorem destroyLoop_eq_filter {α : Type} [DecidableEq α] (t : α)
    (windows : List α) (i : Nat) :
    destroyLoop t windows i =
      windows.take i ++ (windows.drop i).filter (fun w => w ≠ t) := by
  induction windows, i using destroyLoop.induct (t := t) with
  | case1 windows i h1 heq ih =>
      have hl : (windows.take i).length = i := by
        rw [List.length_take]
        omega
      have heq' : windows[i] = t := heq
      rw [destroyLoop, dif_pos h1, if_pos heq, ih,
        List.eraseIdx_eq_take_drop_succ, List.take_left' hl, List.drop_left' hl,
        List.drop_eq_getElem_cons h1, List.filter_cons_of_neg (by simp [heq'])]
  | case2 windows i h1 hne ih =>
      have hne' : ¬windows[i] = t := hne
      rw [destroyLoop, dif_pos h1, if_neg hne, ih,
        List.drop_eq_getElem_cons h1, List.filter_cons_of_pos (by simp [hne']),
        List.take_succ, List.getElem?_eq_getElem h1]
      simp only [Option.toList_some, List.append_assoc, List.singleton_append]
  | case3 windows i h =>
      rw [destroyLoop, dif_neg h, List.take_of_length_le (by omega),
        List.drop_eq_nil_of_le (by omega)]
      simp

theorem windowDestroy_eq_filter {α : Type} [DecidableEq α]
    (windows : List α) (t : α) :
    windowDestroy windows t = windows.filter (fun w => w ≠ t) := by
  rw [windowDestroy, destroyLoop_eq_filter]
  simp

/-! ### Claims about the scheduler arms -/

/-- C1: `SYS_EXIT` removes the current context (and then remaps and switches)
only when the table length is greater than 1 and the current index is greater
than 1; in every other case, including a table of length 1, the table and
cursor are left unchanged and no remap or switch is performed. -/
theorem exit_removes_only_under_guard {α : Type} (s : SchedState α)
    (hv : s.context_i < s.contexts.length) :
    (s.contexts.length > 1 ∧ s.context_i > 1 →
      (sysExit s).1.contexts = s.contexts.eraseIdx s.context_i ∧
      (sysExit s).1.contexts.length = s.contexts.length - 1 ∧
      (sysExit s).2 ≠ none) ∧
    (¬(s.contexts.length > 1 ∧ s.context_i > 1) →
      (sysExit s).1 = s ∧ (sysExit s).2 = none) := by
  constructor
  · intro hg
    obtain ⟨h1, _, c, next, _, _, h2⟩ := sysExit_of_guard s hv hg
    refine ⟨h1, ?_, by rw [h2]; exact Option.some_ne_none _⟩
    rw [h1, List.length_eraseIdx_of_lt hv]
  · intro hg
    rw [sysExit_of_not_guard s hg]
    exact ⟨rfl, rfl⟩

/-- Witness for C1 at the length-1 table `[0]` with cursor 0 (the spec's
"exit requested while length = 1" scenario): nothing changes and no switch
happens. -/
theorem exit_removes_only_under_guard_witness :
    (sysExit (⟨[0], 0⟩ : SchedState Nat)).1 = ⟨[0], 0⟩ ∧
    (sysExit (⟨[0], 0⟩ : SchedState Nat)).2 = none :=
  (exit_removes_only_under_guard (⟨[0], 0⟩ : SchedState Nat) (by decide)).2 (by decide)

/-- C2: with the table length `N` fixed (yield never changes the table) and
the cursor a valid index, `N` consecutive `SYS_YIELD`s return the cursor to
its initial value, and the cursor values observed after each of the `N`
yields are a permutation of `0, …, N-1`: every index is visited exactly
once. -/
theorem yield_round_robin {α : Type} (s : SchedState α)
    (hv : s.context_i < s.contexts.length) :
    (yields s s.contexts.length).contexts = s.contexts ∧
    (yields s s.contexts.length).context_i = s.context_i ∧
    ((List.range s.contexts.length).map fun k =>
        (yields s (k + 1)).context_i).Perm (List.range s.contexts.length) := by
  refine ⟨yields_contexts s _, ?_, ?_⟩
  · rw [yields_context_i s _ hv, Nat.add_mod_right, Nat.mod_eq_of_lt hv]
  · rw [yields_visited_eq_rotate s hv]
    exact List.rotate_perm _ _

/-- Witness for C2 on the table `[10, 20, 30]` with cursor 1: three yields
visit each of the indices 0, 1, 2 exactly once and end back at cursor 1. -/
theorem yield_round_robin_witness :
    (yields (⟨[10, 20, 30], 1⟩ : SchedState Nat) 3).contexts = [10, 20, 30] ∧
    (yields (⟨[10, 20, 30], 1⟩ : SchedState Nat) 3).context_i = 1 ∧
    ((List.range 3).map fun k =>
        (yields (⟨[10, 20, 30], 1⟩ : SchedState Nat) (k + 1)).context_i).Perm
      (List.range 3) :=
  yield_round_robin (⟨[10, 20, 30], 1⟩ : SchedState Nat) (by decide)

/-- C3: starting from a non-empty table with a valid cursor, a single
`SYS_YIELD` or `SYS_EXIT` leaves a non-empty table with the cursor again a
valid index into it. -/
theorem cursor_valid_after_step {α : Type} (s : SchedState α)
    (hne : s.contexts ≠ []) (hv : s.context_i < s.contexts.length) :
    ((sysYield s).1.contexts ≠ [] ∧
      (sysYield s).1.context_i < (sysYield s).1.contexts.length) ∧
    ((sysExit s).1.contexts ≠ [] ∧
      (sysExit s).1.context_i < (sysExit s).1.contexts.length) := by
  have hpos : 0 < s.contexts.length := Nat.lt_of_le_of_lt (Nat.zero_le _) hv
  constructor
  · rw [sysYield_fst_contexts, sysYield_fst_context_i s hv]
    exact ⟨hne, Nat.mod_lt _ hpos⟩
  · by_cases hg : s.contexts.length > 1 ∧ s.context_i > 1
    · obtain ⟨h1, h2, _⟩ := sysExit_of_guard s hv hg
      have hlen : (sysExit s).1.contexts.length = s.contexts.length - 1 := by
        rw [h1, List.length_eraseIdx_of_lt hv]
      constructor
      · rw [← List.length_pos, hlen]
        omega
      · rw [hlen, h2]
        by_cases hc : s.context_i = s.contexts.length - 1
        · rw [if_pos hc]; omega
        · rw [if_neg hc]; omega
    · rw [sysExit_of_not_guard s hg]
      exact ⟨hne, hv⟩

/-- Witness for C3 on the table `[5, 6]` with cursor 1. -/
theorem cursor_valid_after_step_witness :
    ((sysYield (⟨[5, 6], 1⟩ : SchedState Nat)).1.contexts ≠ [] ∧
      (sysYield (⟨[5, 6], 1⟩ : SchedState Nat)).1.context_i <
        (sysYield (⟨[5, 6], 1⟩ : SchedState Nat)).1.contexts.length) ∧
    ((sysExit (⟨[5, 6], 1⟩ : SchedState Nat)).1.contexts ≠ [] ∧
      (sysExit (⟨[5, 6], 1⟩ : SchedState Nat)).1.context_i <
        (sysExit (⟨[5, 6], 1⟩ : SchedState Nat)).1.contexts.length) :=
  cursor_valid_after_step (⟨[5, 6], 1⟩ : SchedState Nat) (by decide) (by decide)

/-- C4: when the exit guard holds and the cursor is the last index `L-1` of a
length-`L` table, `SYS_EXIT` drops that last context, rebases the cursor to
0 on the length-`(L-1)` table, and remaps+switches to the context now at
index 0. -/
theorem exit_at_last_rebases {α : Type} (s : SchedState α)
    (hg : s.contexts.length > 1 ∧ s.context_i > 1)
    (hlast : s.context_i = s.contexts.length - 1) :
    (sysExit s).1.contexts = s.contexts.dropLast ∧
    (sysExit s).1.contexts.length = s.contexts.length - 1 ∧
    (sysExit s).1.context_i = 0 ∧
    ∃ c next, s.contexts[s.context_i]? = some c ∧
      (sysExit s).1.contexts[0]? = some next ∧
      (sysExit s).2 = some (c, next) := by
  have hv : s.context_i < s.contexts.length := by omega
  obtain ⟨h1, h2, c, next, hc, hn, hs⟩ := sysExit_of_guard s hv hg
  have hdrop : s.contexts.eraseIdx s.context_i = s.contexts.dropLast := by
    rw [List.eraseIdx_eq_take_drop_succ, hlast, List.dropLast_eq_take]
    have : s.contexts.length - 1 + 1 = s.contexts.length := by omega
    rw [this, List.drop_length, List.append_nil]
  have hcursor : (sysExit s).1.context_i = 0 := by rw [h2, if_pos hlast]
  refine ⟨by rw [h1, hdrop], ?_, hcursor, c, next, hc, ?_, hs⟩
  · rw [h1, List.length_eraseIdx_of_lt hv]
  · rw [h1, ← hcursor]
    exact hn

/-- Witness for C4 on the table `[7, 8, 9]` with cursor 2: context 9 is
removed, the cursor rebases to 0, and the switch goes to context 7. -/
theorem exit_at_last_rebases_witness :
    (sysExit (⟨[7, 8, 9], 2⟩ : SchedState Nat)).1.contexts = [7, 8] ∧
    (sysExit (⟨[7, 8, 9], 2⟩ : SchedState Nat)).1.context_i = 0 ∧
    (sysExit (⟨[7, 8, 9], 2⟩ : SchedState Nat)).2 = some (9, 7) := by
  obtain ⟨h1, _, h3, c, next, hc, hn, hs⟩ :=
    exit_at_last_rebases (⟨[7, 8, 9], 2⟩ : SchedState Nat) (by decide) (by decide)
  have hc9 : c = 9 := by
    have h : some (9 : Nat) = some c := by exact hc
    exact (Option.some_inj.mp h).symm
  rw [h1] at hn
  have hn7 : next = 7 := by
    have h : some (7 : Nat) = some next := by exact hn
    exact (Option.some_inj.mp h).symm
  exact ⟨h1, h3, by rw [hs, hc9, hn7]⟩

/-! ### Debug-output helper lemmas -/

theorem scrollLoop_spec (height y : Int) :
    (scrollLoop height y).1 = y - 16 * (scrollLoop height y).2 ∧
    (scrollLoop height y).1 + 16 ≤ height ∧
    ∀ m : Nat, m < (scrollLoop height y).2 → y - 16 * m + 16 > height := by
  induction y using scrollLoop.induct (h := height) with
  | case1 y hgt ih =>
      obtain ⟨ih1, ih2, ih3⟩ := ih
      rw [scrollLoop, if_pos hgt]
      refine ⟨?_, ih2, ?_⟩
      · push_cast
        omega
      · intro m hm
        cases m with
        | zero => simpa using hgt
        | succ m' =>
            have hx := ih3 m' (by simpa using hm)
            push_cast at hx ⊢
            omega
  | case2 y hgt =>
      rw [scrollLoop, if_neg hgt]
      refine ⟨by push_cast; omega, by omega, ?_⟩
      intro m hm
      simp at hm

/-! ### Claim about the debug-output arm -/

/-- C7: with a debug surface configured, `SYS_DEBUG` of a byte other than 10
draws one glyph at the cursor and advances the cursor by the fixed
horizontal step 8; when the advanced cursor reaches the surface width it
wraps to the start of the next line, 16 lower; while the cursor's line would
exceed the surface height the surface scrolls by one line height (16),
exactly as long as the exceed condition holds; byte 10 forces a line break
without drawing; and with or without a configured surface the raw byte is
written to the fixed legacy serial port. -/
theorem debug_output_spec (d : Display) (st : DebugState) (b : Nat) :
    (sysDebug (some d) st b).serial = b % 256 ∧
    sysDebug none st b = ⟨st, none, 0, b % 256⟩ ∧
    (b = 10 → (sysDebug (some d) st b).drawn = none) ∧
    (b ≠ 10 → (sysDebug (some d) st b).drawn
        = some (st.point, Char.ofNat (b % 256))) ∧
    (sysDebug (some d) st b).state.point.y + 16 ≤ (d.height : Int) ∧
    (b ≠ 10 → st.point.x + 8 < (d.width : Int) →
      (sysDebug (some d) st b).state.point.x = st.point.x + 8 ∧
      (sysDebug (some d) st b).state.point.y
        = st.point.y - 16 * (sysDebug (some d) st b).scrolls ∧
      ∀ m : Nat, m < (sysDebug (some d) st b).scrolls →
        st.point.y - 16 * m + 16 > (d.height : Int)) ∧
    (b ≠ 10 → st.point.x + 8 ≥ (d.width : Int) →
      (sysDebug (some d) st b).state.point.x = 0 ∧
      (sysDebug (some d) st b).state.point.y
        = st.point.y + 16 - 16 * (sysDebug (some d) st b).scrolls ∧
      ∀ m : Nat, m < (sysDebug (some d) st b).scrolls →
        st.point.y + 16 - 16 * m + 16 > (d.height : Int)) ∧
    (b = 10 → 0 < (d.width : Int) →
      (sysDebug (some d) st b).state.point.x = 0 ∧
      (sysDebug (some d) st b).state.point.y
        = st.point.y + 16 - 16 * (sysDebug (some d) st b).scrolls ∧
      ∀ m : Nat, m < (sysDebug (some d) st b).scrolls →
        st.point.y + 16 - 16 * m + 16 > (d.height : Int)) := by
  refine ⟨rfl, rfl, ?_, ?_, (scrollLoop_spec _ _).2.1, ?_, ?_, ?_⟩
  · intro hb
    simp [sysDebug, hb]
  · intro hb
    simp [sysDebug, hb]
  · intro hb hw
    have hcond : ¬(st.point.x + 8 ≥ (d.width : Int)) := by omega
    simp only [sysDebug, if_neg hb, if_neg hcond]
    exact ⟨trivial, (scrollLoop_spec _ _).1, (scrollLoop_spec _ _).2.2⟩
  · intro hb hw
    simp only [sysDebug, if_neg hb, if_pos hw]
    exact ⟨trivial, (scrollLoop_spec _ _).1, (scrollLoop_spec _ _).2.2⟩
  · intro hb hw
    have hcond : ¬((0 : Int) ≥ (d.width : Int)) := by omega
    simp only [sysDebug, if_pos hb, if_neg hcond]
    exact ⟨trivial, (scrollLoop_spec _ _).1, (scrollLoop_spec _ _).2.2⟩

/-- Witness for C7 on a 320×200 surface with the cursor at the origin: byte
65 draws a glyph at the origin and moves the cursor to x = 8 without
scrolling, and byte 10 draws nothing. -/
theorem debug_output_spec_witness :
    (sysDebug (some ⟨320, 200⟩) ⟨⟨0, 0⟩, false⟩ 65).drawn
        = some (⟨0, 0⟩, Char.ofNat (65 % 256)) ∧
    (sysDebug (some ⟨320, 200⟩) ⟨⟨0, 0⟩, false⟩ 65).state.point.x = 0 + 8 ∧
    (sysDebug (some ⟨320, 200⟩) ⟨⟨0, 0⟩, false⟩ 65).state.point.y = 0 ∧
    (sysDebug (some ⟨320, 200⟩) ⟨⟨0, 0⟩, false⟩ 10).drawn = none := by
  have h := debug_output_spec ⟨320, 200⟩ ⟨⟨0, 0⟩, false⟩ 65
  have h10 := debug_output_spec ⟨320, 200⟩ ⟨⟨0, 0⟩, false⟩ 10
  have h6 := h.2.2.2.2.2.1 (by decide) (by decide)
  have hs0 : (sysDebug (some ⟨320, 200⟩) ⟨⟨0, 0⟩, false⟩ 65).scrolls = 0 := by
    by_contra hs
    have hm := h6.2.2 0 (by omega)
    norm_num at hm
  refine ⟨h.2.2.2.1 (by decide), h6.1, ?_, h10.2.2.1 rfl⟩
  have hy := h6.2.1
  rw [hs0] at hy
  simpa using hy

/-! ### Claims about the window-destroy arm -/

/-- C5 counterexample: destroying handle 5 in the list `[5, 5]` removes BOTH
entries, leaving `[]` — the later duplicate is not left in place, so the
result is not `[5]` as the claim requires. -/
theorem window_destroy_not_first_only :
    windowDestroy ([5, 5] : List Nat) 5 = [] ∧
    windowDestroy ([5, 5] : List Nat) 5 ≠ [5] := by
  rw [windowDestroy_eq_filter]
  decide

/-- C5 (amended): for every window list, Window-destroy removes every entry
equal by identity to the given handle (the scan continues past a match and
removes later duplicates too), it leaves the list unchanged when no entry
matches, and destroying the same handle twice removes the matches on the
first call while the second call is a harmless no-op. -/
theorem window_destroy_amended {α : Type} [DecidableEq α] (windows : List α)
    (h : α) :
    (h ∉ windows → windowDestroy windows h = windows) ∧
    h ∉ windowDestroy windows h ∧
    windowDestroy (windowDestroy windows h) h = windowDestroy windows h := by
  simp only [windowDestroy_eq_filter]
  refine ⟨?_, ?_, ?_⟩
  · intro hmem
    apply List.filter_eq_self.mpr
    intro a ha
    simp only [ne_eq, decide_eq_true_eq]
    intro rfl_eq
    exact hmem (rfl_eq ▸ ha)
  · simp
  · simp [List.filter_filter]

/-- Witness for the amended C5 at the list `[1, 2]` and absent handle 5:
the destroy is a no-op. -/
theorem window_destroy_amended_witness :
    windowDestroy ([1, 2] : List Nat) 5 = [1, 2] :=
  (window_destroy_amended ([1, 2] : List Nat) 5).1 (by decide)

/-- C10: after Window-destroy with handle `h`, no entry equal to `h` remains
anywhere in the session window list — the removal loop continues scanning
past the first match and removes every duplicate — while all non-matching
entries keep their relative order: the result is exactly the sublist of
entries different from `h`. -/
theorem window_destroy_removes_all {α : Type} [DecidableEq α]
    (windows : List α) (h : α) :
    windowDestroy windows h = windows.filter (fun w => w ≠ h) ∧
    h ∉ windowDestroy windows h := by
  refine ⟨windowDestroy_eq_filter windows h, ?_⟩
  rw [windowDestroy_eq_filter]
  simp

/-! ### Guarded-access helper lemma -/

theorem table_events_not_unguarded (op : Opcode) (cfg : Bool) (e : Event) :
    Sing.table ∉ unguardedAccesses (syscallTrace op cfg e) 0 ∧
    Sing.events ∉ unguardedAccesses (syscallTrace op cfg e) 0 := by
  cases op <;> first
    | (simp only [syscallTrace]; split_ifs <;> simp [unguardedAccesses])
    | simp [syscallTrace, unguardedAccesses]

/-! ### Claims about the mask guard and the guarded sections -/

/-- C9: releasing the Mask Guard with the token returned at acquisition
restores the interrupt-enabled flag to exactly its value at acquisition
(not unconditionally re-enabled): acquiring masks interrupts, a release
after acquiring while already masked leaves them masked, and a nested
acquire/release pair inside an outer guard releases back to masked while
the outer release restores the original flag. -/
theorem mask_guard_restores (iflag : Bool) :
    (start_no_ints iflag).2 = false ∧
    end_no_ints (start_no_ints iflag).1 (start_no_ints iflag).2 = iflag ∧
    end_no_ints (start_no_ints false).1 (start_no_ints false).2 = false ∧
    end_no_ints (start_no_ints iflag).1
      (end_no_ints (start_no_ints (start_no_ints iflag).2).1
        (start_no_ints (start_no_ints iflag).2).2) = iflag ∧
    end_no_ints (start_no_ints (start_no_ints iflag).2).1
      (start_no_ints (start_no_ints iflag).2).2 = false := by
  cases iflag <;> decide

/-- C6 counterexample: the `SYS_OPEN` arm dereferences the active-session
reference with no `start_no_ints` at all (handle.rs lines 68–72), the mouse
clamping of `SYS_TRIGGER` touches the session before the guard (lines
76–82), and the whole `SYS_DEBUG` arm reads the debug-surface globals
unguarded (lines 21–38) — so singleton accesses outside every guarded
section do occur. -/
theorem unguarded_singleton_access :
    unguardedAccesses (syscallTrace .sysOpenOp true ⟨'m', 3, 4, 0⟩) 0
        = [Sing.session] ∧
    unguardedAccesses (syscallTrace .sysTriggerOp true ⟨'m', 3, 4, 0⟩) 0
        = [Sing.session] ∧
    unguardedAccesses (syscallTrace .sysDebugOp true ⟨'m', 3, 4, 0⟩) 0
        = [Sing.debug, Sing.debug] ∧
    ([Sing.session] : List Sing) ≠ [] := by decide

/-- C6 (amended): in every syscall arm every access to the process table
and cursor, and every access to the event queue, happens inside a guarded
section; but accesses to the active-session reference and to the
debug-surface state do occur outside any guard (in the `SYS_OPEN` and
`SYS_DEBUG` arms, and in the pre-guard phase of `SYS_TRIGGER`). -/
theorem table_and_events_always_guarded (op : Opcode) (cfg : Bool)
    (e : Event) :
    (Sing.table ∉ unguardedAccesses (syscallTrace op cfg e) 0 ∧
     Sing.events ∉ unguardedAccesses (syscallTrace op cfg e) 0) ∧
    Sing.session ∈ unguardedAccesses (syscallTrace .sysOpenOp cfg e) 0 ∧
    Sing.debug ∈ unguardedAccesses (syscallTrace .sysDebugOp cfg e) 0 := by
  refine ⟨table_events_not_unguarded op cfg e, ?_, ?_⟩
  · simp [syscallTrace, unguardedAccesses]
  · cases cfg <;> simp [syscallTrace, unguardedAccesses]

/-! ### Claim about the event-trigger arm -/

/-- C8: for an event with pointer-motion code `'m'`, `SYS_TRIGGER` replaces
the event coordinates by the session mouse point plus the event deltas
clamped to `[0, width-1]` × `[0, height-1]`, moves the session mouse point
to exactly those clamped coordinates, raises the session redraw level to at
least the cursor-redraw level, and appends the mutated event — not the
original — to the global event queue, whose access lies inside the guarded
section of the arm's trace. -/
theorem trigger_mouse_event (s : Session) (evs : List Event)
    (dd dr : Bool) (e : Event) (hm : e.code = 'm') :
    (sysTrigger s evs dd dr e).2.1 =
      evs ++ [{ e with
        a := max 0 (min ((s.display.width : Int) - 1) (s.mouse_point.x + e.a)),
        b := max 0 (min ((s.display.height : Int) - 1)
              (s.mouse_point.y + e.b)) }] ∧
    (sysTrigger s evs dd dr e).1.mouse_point =
      ⟨max 0 (min ((s.display.width : Int) - 1) (s.mouse_point.x + e.a)),
       max 0 (min ((s.display.height : Int) - 1) (s.mouse_point.y + e.b))⟩ ∧
    (sysTrigger s evs dd dr e).1.redraw = max s.redraw REDRAW_CURSOR ∧
    REDRAW_CURSOR ≤ (sysTrigger s evs dd dr e).1.redraw ∧
    ∀ cfg : Bool,
      Sing.events ∉ unguardedAccesses (syscallTrace .sysTriggerOp cfg e) 0 := by
  refine ⟨?_, ?_, ?_, ?_, fun cfg => (table_events_not_unguarded _ cfg e).2⟩
  · simp [sysTrigger, hm]
  · simp [sysTrigger, hm]
  · simp [sysTrigger, hm]
  · simp [sysTrigger, hm, REDRAW_CURSOR]

/-- Witness for C8: a mouse event with deltas (10, -5) on a 100×80 display
with the mouse at (95, 3): the event is clamped to (99, 0), the mouse moves
there, and the redraw level rises to the cursor level. -/
theorem trigger_mouse_event_witness :
    (sysTrigger ⟨⟨100, 80⟩, ⟨95, 3⟩, 0⟩ [] false false ⟨'m', 10, -5, 0⟩).2.1
        = [⟨'m', 99, 0, 0⟩] ∧
    (sysTrigger ⟨⟨100, 80⟩, ⟨95, 3⟩, 0⟩ []
        false false ⟨'m', 10, -5, 0⟩).1.mouse_point = ⟨99, 0⟩ ∧
    (sysTrigger ⟨⟨100, 80⟩, ⟨95, 3⟩, 0⟩ []
        false false ⟨'m', 10, -5, 0⟩).1.redraw = 1 := by
  have h := trigger_mouse_event ⟨⟨100, 80⟩, ⟨95, 3⟩, 0⟩ []
    false false ⟨'m', 10, -5, 0⟩ rfl
  refine ⟨?_, ?_, ?_⟩
  · rw [h.1]
    decide
  · rw [h.2.1]
    decide
  · rw [h.2.2.1]
    decide

end Redox
